import Mathlib

/-!
Shallow embedding of the `UltraAIService` class of the
Full-Stack-ChatGPT-Clone repository (provider streaming gateway), together
with proofs about its streaming parse loop, settings validation, token and
cost estimation, and message normalization.

Text is modelled as `List Char`; a streaming read delivers a list of such
chunks (the `TextDecoder` with streaming mode makes byte-level UTF-8
boundary handling transparent, so character-level chunking is faithful).
JavaScript numbers are modelled as exact rationals.
-/

namespace UltraAIService

/-- Whitespace test for the JavaScript `\s` class and `String.trim`
(ASCII core: space, tab, newline, carriage return, vertical tab, form feed). -/
def isJsWs (c : Char) : Bool :=
  c = ' ' || c = '\t' || c = '\n' || c = '\r' || c = '\x0b' || c = '\x0c'

/-- Drop leading JavaScript whitespace from a character list. -/
def dropWsL : List Char → List Char
  | [] => []
  | c :: cs => if isJsWs c then dropWsL cs else c :: cs

/-- Embedding of JavaScript `String.prototype.trim`. -/
def jsTrim (s : List Char) : List Char :=
  ((dropWsL ((dropWsL s).reverse)).reverse)

/-- Embedding of JavaScript `String.prototype.startsWith`. -/
def startsWith : List Char → List Char → Bool
  | _, [] => true
  | [], _ :: _ => false
  | c :: cs, p :: ps => c = p && startsWith cs ps

/-- Embedding of the JavaScript `a || b` idiom on an optional string field:
`undefined` and the empty string are falsy and select the default. -/
def jsOr (o : Option String) (d : String) : String :=
  match o with
  | none => d
  | some s => if s = "" then d else s

/-- JSON values as produced by `JSON.parse`.  Numbers are exact rationals. -/
inductive Json where
  | null
  | bool (b : Bool)
  | num (q : ℚ)
  | str (s : String)
  | arr (elems : List Json)
  | obj (members : List (String × Json))

/-- JSON insignificant whitespace. -/
def isJsonWs (c : Char) : Bool :=
  c = ' ' || c = '\t' || c = '\n' || c = '\r'

/-- Drop leading JSON whitespace. -/
def skipWsJ : List Char → List Char
  | [] => []
  | c :: cs => if isJsonWs c then skipWsJ cs else c :: cs

/-- Value of a hexadecimal digit, if any. -/
def hexVal (c : Char) : Option Nat :=
  if '0' ≤ c ∧ c ≤ '9' then some (c.toNat - 48)
  else if 'a' ≤ c ∧ c ≤ 'f' then some (c.toNat - 87)
  else if 'A' ≤ c ∧ c ≤ 'F' then some (c.toNat - 55)
  else none

/-- Single-character JSON string escapes. -/
def escChar (c : Char) : Option Char :=
  if c = '"' then some '"'
  else if c = '\\' then some '\\'
  else if c = '/' then some '/'
  else if c = 'b' then some '\x08'
  else if c = 'f' then some '\x0c'
  else if c = 'n' then some '\n'
  else if c = 'r' then some '\r'
  else if c = 't' then some '\t'
  else none

/-- Body of a JSON string literal (opening quote already consumed); returns
the decoded characters and the input remaining after the closing quote. -/
def parseStrBody : List Char → Option (List Char × List Char)
  | [] => none
  | c :: rest =>
    if c = '"' then some ([], rest)
    else if c = '\\' then
      match rest with
      | [] => none
      | e :: r2 =>
        if e = 'u' then
          match r2 with
          | h1 :: h2 :: h3 :: h4 :: r3 =>
            match hexVal h1, hexVal h2, hexVal h3, hexVal h4 with
            | some a, some b, some c3, some d =>
              match parseStrBody r3 with
              | some (s, r) => some (Char.ofNat (a * 4096 + b * 256 + c3 * 16 + d) :: s, r)
              | none => none
            | _, _, _, _ => none
          | _ => none
        else
          match escChar e with
          | some ec =>
            match parseStrBody r2 with
            | some (s, r) => some (ec :: s, r)
            | none => none
          | none => none
    else if c.toNat < 32 then none
    else
      match parseStrBody rest with
      | some (s, r) => some (c :: s, r)
      | none => none

/-- Take a maximal run of decimal digits. -/
def takeDigits : List Char → List Char × List Char
  | [] => ([], [])
  | c :: cs =>
    if c.isDigit then
      ((c :: (takeDigits cs).1), (takeDigits cs).2)
    else ([], c :: cs)

/-- Numeric value of a digit run. -/
def digitsVal (ds : List Char) : Nat :=
  ds.foldl (fun a c => a * 10 + (c.toNat - 48)) 0

/-- Parse a JSON number token into an exact rational. -/
def parseNum (s : List Char) : Option (Json × List Char) :=
  let sgn : Bool × List Char := match s with
    | '-' :: r => (true, r)
    | _ => (false, s)
  let ip := takeDigits sgn.2
  if ip.1 = [] then none
  else
    let intPart : ℚ := (digitsVal ip.1 : ℚ)
    let fr : Option (ℚ × List Char) := match ip.2 with
      | '.' :: r =>
        let fp := takeDigits r
        if fp.1 = [] then none
        else some ((digitsVal fp.1 : ℚ) / ((10 : ℚ) ^ fp.1.length), fp.2)
      | _ => some (0, ip.2)
    match fr with
    | none => none
    | some (f, s3) =>
      let base := intPart + f
      let withSign : ℚ := if sgn.1 then -base else base
      match s3 with
      | e :: r =>
        if e = 'e' ∨ e = 'E' then
          let es : Int × List Char := match r with
            | '+' :: rr => (1, rr)
            | '-' :: rr => (-1, rr)
            | _ => (1, r)
          let ed := takeDigits es.2
          if ed.1 = [] then none
          else some (Json.num (withSign * (10 : ℚ) ^ (es.1 * (digitsVal ed.1 : Int))), ed.2)
        else some (Json.num withSign, e :: r)
      | [] => some (Json.num withSign, [])

mutual

/-- Fuel-indexed recursive-descent JSON value parser (model of `JSON.parse`'s
grammar); returns the value and the remaining input. -/
def parseVal : Nat → List Char → Option (Json × List Char)
  | 0, _ => none
  | Nat.succ fuel, s =>
    match skipWsJ s with
    | [] => none
    | c :: rest =>
      if c = '\x7b' then
        match skipWsJ rest with
        | '\x7d' :: r2 => some (Json.obj [], r2)
        | _ =>
          match parseMembers fuel rest with
          | some (ms, r) => some (Json.obj ms, r)
          | none => none
      else if c = '[' then
        match skipWsJ rest with
        | ']' :: r2 => some (Json.arr [], r2)
        | _ =>
          match parseElems fuel rest with
          | some (es, r) => some (Json.arr es, r)
          | none => none
      else if c = '"' then
        match parseStrBody rest with
        | some (cs, r) => some (Json.str (String.mk cs), r)
        | none => none
      else if c = 't' then
        if startsWith rest ("rue".data) then some (Json.bool true, rest.drop 3) else none
      else if c = 'f' then
        if startsWith rest ("alse".data) then some (Json.bool false, rest.drop 4) else none
      else if c = 'n' then
        if startsWith rest ("ull".data) then some (Json.null, rest.drop 3) else none
      else parseNum (c :: rest)

/-- Members of a JSON object after the opening brace (nonempty member list). -/
def parseMembers : Nat → List Char → Option (List (String × Json) × List Char)
  | 0, _ => none
  | Nat.succ fuel, s =>
    match skipWsJ s with
    | '"' :: rest =>
      match parseStrBody rest with
      | none => none
      | some (key, r1) =>
        match skipWsJ r1 with
        | ':' :: r2 =>
          match parseVal fuel r2 with
          | none => none
          | some (v, r3) =>
            match skipWsJ r3 with
            | ',' :: r4 =>
              match parseMembers fuel r4 with
              | some (ms, r) => some ((String.mk key, v) :: ms, r)
              | none => none
            | '\x7d' :: r4 => some ([(String.mk key, v)], r4)
            | _ => none
        | _ => none
    | _ => none

/-- Elements of a JSON array after the opening bracket (nonempty element list). -/
def parseElems : Nat → List Char → Option (List Json × List Char)
  | 0, _ => none
  | Nat.succ fuel, s =>
    match parseVal fuel s with
    | none => none
    | some (v, r1) =>
      match skipWsJ r1 with
      | ',' :: r2 =>
        match parseElems fuel r2 with
        | some (es, r) => some (v :: es, r)
        | none => none
      | ']' :: r2 => some ([v], r2)
      | _ => none

end

/-- Embedding of `JSON.parse`: parse a complete JSON text, requiring that
only whitespace remains, and fail (that is, throw) otherwise. -/
def jsonParse (s : List Char) : Option Json :=
  match parseVal (s.length + 2) s with
  | some (j, rest) => if skipWsJ rest = [] then some j else none
  | none => none

/-- Property lookup on a JSON object: with duplicate keys, `JSON.parse`
keeps the last occurrence. -/
def lookupLast : List (String × Json) → String → Option Json
  | [], _ => none
  | (k', v) :: rest, k =>
    match lookupLast rest k with
    | some r => some r
    | none => if k' = k then some v else none

/-- JavaScript property access `j.k`; `none` stands for `undefined`
(property access on a primitive also yields `undefined`). -/
def getField (j : Json) (k : String) : Option Json :=
  match j with
  | Json.obj ms => lookupLast ms k
  | _ => none

/-- JavaScript index access `j[0]`: array element, character of a string,
or the property named `0` of an object. -/
def jsIndex0 : Json → Option Json
  | Json.arr es => es.head?
  | Json.obj ms => lookupLast ms ("0")
  | Json.str s =>
    match s.data with
    | [] => none
    | c :: _ => some (Json.str (String.mk [c]))
  | _ => none

/-- The access chain `data.choices[0]?.delta?.content` from `openAIStream`.
When `choices` is `undefined` the source throws a `TypeError` instead of
yielding `undefined`, but that throw is caught by the surrounding parse
`catch`, so both cases are observably `none` (the line is skipped). -/
def extractContent (j : Json) : Option Json :=
  match getField j ("choices") with
  | none => none
  | some ch =>
    match jsIndex0 ch with
    | none => none
    | some el =>
      match getField el ("delta") with
      | none => none
      | some d => getField d ("content")

/-- JavaScript truthiness of a JSON value (`if (chunk)`). -/
def jsTruthy : Json → Bool
  | Json.null => false
  | Json.bool b => b
  | Json.num q => q ≠ 0
  | Json.str s => s ≠ ""
  | Json.arr _ => true
  | Json.obj _ => true

/-- Observable callback events of the streaming path: `onChunk` with the
delta content value, `onComplete`, and `onError`. -/
inductive Event where
  | chunk (content : Json)
  | complete
  | error

/-- Action the `for (const line of lines)` body of `openAIStream` takes on
one complete line: terminate the stream via `onComplete` and `return`,
emit the parsed content through `onChunk`, or do nothing. -/
inductive LineAct where
  | terminal
  | emit (content : Json)
  | skip

/-- One iteration of the line loop of `openAIStream`: trim the line; an
empty line or the `[DONE]` sentinel invokes `onComplete` and returns; a
`data: ` line has its payload parsed by `JSON.parse` (a parse failure is
caught and only logged) and a truthy `choices[0]?.delta?.content` is
passed to `onChunk`; any other line is ignored. -/
def lineAction (line : List Char) : LineAct :=
  let t := jsTrim line
  if t = [] ∨ t = ("data: [DONE]".data) then LineAct.terminal
  else if startsWith t ("data: ".data) then
    match jsonParse (t.drop 6) with
    | some data =>
      match extractContent data with
      | some c => if jsTruthy c then LineAct.emit c else LineAct.skip
      | none => LineAct.skip
    | none => LineAct.skip
  else LineAct.skip

/-- Run the line loop over the complete lines extracted from the buffer:
returns the emitted events and whether the loop returned early via
`onComplete`. -/
def processLines : List (List Char) → List Event × Bool
  | [] => ([], false)
  | l :: ls =>
    match lineAction l with
    | LineAct.terminal => ([Event.complete], true)
    | LineAct.emit c =>
      ((Event.chunk c :: (processLines ls).1), (processLines ls).2)
    | LineAct.skip => processLines ls

/-- Embedding of `const lines = buffer.split('\n'); buffer = lines.pop() || ''`:
the complete newline-terminated lines, and the trailing partial line that is
carried forward as the new buffer. -/
def splitLines : List Char → List (List Char) × List Char
  | [] => ([], [])
  | c :: cs =>
    if c = '\n' then (([] :: (splitLines cs).1), (splitLines cs).2)
    else
      match splitLines cs with
      | ([], b) => ([], c :: b)
      | (l :: ls, b) => (((c :: l) :: ls), b)

/-- The `while (true)` read loop of `openAIStream`: each upstream chunk is
appended to the buffer, complete lines are processed, and the trailing
partial line becomes the new buffer; the loop returns early when a line
triggers `onComplete`, and simply breaks (with no further event) when the
reader reports `done`. -/
def runLoop : List Char → List (List Char) → List Event × Bool
  | _, [] => ([], false)
  | buffer, c :: cs =>
    let parts := splitLines (buffer ++ c)
    let r := processLines parts.1
    if r.2 then (r.1, true)
    else
      ((r.1 ++ (runLoop parts.2 cs).1), (runLoop parts.2 cs).2)

/-- Outcome of one `fetch` of the upstream connection: the promise rejects
(`netError`), or a response arrives with an HTTP ok flag, the sequence of
body chunks the reader delivers, and whether the final read rejects
instead of reporting `done`. -/
inductive FetchResult where
  | netError
  | response (ok : Bool) (chunks : List (List Char)) (readErr : Bool)

/-- Embedding of `openAIStream`, parameterized by the upstream environment
as a function from attempt number to fetch outcome.  The source calls
`fetch` exactly once, so only attempt `0` is ever consulted: a rejected
fetch or a non-ok status reaches the surrounding `catch` and fires
`onError`; otherwise the read loop runs, and a read rejection after the
delivered chunks (when the loop has not already returned) also fires
`onError`. -/
def openAIStream (fetches : Nat → FetchResult) : List Event :=
  match fetches 0 with
  | FetchResult.netError => [Event.error]
  | FetchResult.response ok chunks readErr =>
    if ok then
      let r := runLoop [] chunks
      if r.2 then r.1
      else if readErr then r.1 ++ [Event.error] else r.1
    else [Event.error]

/-- Embedding of `streamResponse`: resolves the provider with
`settings.provider || this.defaultSettings.provider` and dispatches.  The
`anthropic` case calls `this.anthropicStream`, which is not defined
anywhere on the class, so the call throws and the surrounding `catch`
fires `onError`; every other non-openai provider throws the explicit
`Streaming not supported` error, likewise surfaced through `onError`. -/
def streamResponse (provider : Option String) (fetches : Nat → FetchResult) : List Event :=
  let p := jsOr provider ("openai")
  if p = "openai" then openAIStream fetches
  else if p = "anthropic" then [Event.error]
  else [Event.error]

/-- Settings object accepted by the service; `none` models an absent key.
Numeric fields are exact rationals. -/
structure Settings where
  provider : Option String := none
  model : Option String := none
  temperature : Option ℚ := none
  maxTokens : Option ℚ := none
  topP : Option ℚ := none
  frequencyPenalty : Option ℚ := none
  presencePenalty : Option ℚ := none
  stream : Option Bool := none

/-- The `provider` entry of `this.defaultSettings`. -/
def defaultProvider : String := "openai"

/-- Embedding of `this.availableModels`: the per-provider model lists;
`none` models an absent provider key (note there is no entry for
`local`). -/
def availableModels (provider : String) : Option (List String) :=
  if provider = "openai" then
    some ["gpt-4", "gpt-4-32k", "gpt-4-turbo-preview", "gpt-3.5-turbo",
      "gpt-3.5-turbo-16k", "gpt-4-vision-preview"]
  else if provider = "anthropic" then
    some ["claude-3-opus-20240229", "claude-3-sonnet-20240229", "claude-2.1",
      "claude-instant-1.2"]
  else if provider = "cohere" then
    some ["command", "command-nightly", "command-light", "command-light-nightly"]
  else if provider = "huggingface" then
    some ["mistralai/Mistral-7B-Instruct-v0.2", "google/flan-t5-xxl",
      "microsoft/DialoGPT-large"]
  else none

/-- The temperature range violation message of `validateSettings`. -/
def temperatureError : String := "Temperature must be between 0 and 2"

/-- The max tokens range violation message of `validateSettings`. -/
def maxTokensError : String := "Max tokens must be between 1 and 400,000"

/-- The model membership violation message of `validateSettings`. -/
def modelError (models : List String) : String :=
  "Model must be one of: " ++ String.intercalate (", ") models

/-- Embedding of `validateSettings`.  Each check is guarded by JavaScript
truthiness of the field itself (`settings.temperature && ...`), so an
absent field — and equally the number `0` or the empty string — skips the
corresponding check. -/
def validateSettings (s : Settings) : List String :=
  (match s.temperature with
   | some t => if t ≠ 0 ∧ (t < 0 ∨ t > 2) then [temperatureError] else []
   | none => []) ++
  (match s.maxTokens with
   | some m => if m ≠ 0 ∧ (m < 1 ∨ m > 400000) then [maxTokensError] else []
   | none => []) ++
  (match s.model with
   | some mo =>
     if mo ≠ "" then
       match availableModels (jsOr s.provider defaultProvider) with
       | some models => if mo ∈ models then [] else [modelError models]
       | none => []
     else []
   | none => [])

/-- Observable dispatch outcome of `generateResponse`. -/
inductive GenerateOutcome where
  | providerCall (provider : String)
  | undefinedMethodThrow (provider : String)
  | unsupportedProvider (provider : String)

/-- Embedding of `generateResponse`'s dispatch: the settings are merged
over the defaults by object spread (`{ ...this.defaultSettings,
...settings }`, so a present key overrides) and the switch dispatches on
the merged provider.  No settings validation of any kind happens on this
path — `validateSettings` is never invoked by any code in the repository.
The `openai` and `anthropic` arms call their (defined) request methods,
issuing the provider network request; `cohere`, `huggingface` and `local`
call request methods that are not defined on the class, so they throw a
`TypeError` (re-thrown via `handleProviderError`) before any network
I/O; any other provider throws `Unsupported provider`. -/
def generateResponse (s : Settings) : GenerateOutcome :=
  let provider := s.provider.getD defaultProvider
  if provider = "openai" then GenerateOutcome.providerCall ("openai")
  else if provider = "anthropic" then GenerateOutcome.providerCall ("anthropic")
  else if provider = "cohere" then GenerateOutcome.undefinedMethodThrow ("cohere")
  else if provider = "huggingface" then GenerateOutcome.undefinedMethodThrow ("huggingface")
  else if provider = "local" then GenerateOutcome.undefinedMethodThrow ("local")
  else GenerateOutcome.unsupportedProvider provider

/-- Embedding of the `costRates` table of `estimateCost`:
per-1000-token input and output rates. -/
def costRates (provider model : String) : Option (ℚ × ℚ) :=
  if provider = "openai" then
    if model = "gpt-4" then some (0.03, 0.06)
    else if model = "gpt-4-32k" then some (0.06, 0.12)
    else if model = "gpt-3.5-turbo" then some (0.0015, 0.002)
    else if model = "gpt-3.5-turbo-16k" then some (0.003, 0.004)
    else none
  else if provider = "anthropic" then
    if model = "claude-3-opus" then some (0.015, 0.075)
    else if model = "claude-3-sonnet" then some (0.003, 0.015)
    else if model = "claude-2.1" then some (0.008, 0.024)
    else none
  else none

/-- Embedding of `estimateCost`: a missing rate entry yields `0`
(`if (!rates) return 0`), otherwise
`(inputTokens / 1000) * rates.input + (outputTokens / 1000) * rates.output`. -/
def estimateCost (provider model : String) (inputTokens outputTokens : ℚ) : ℚ :=
  match costRates provider model with
  | none => 0
  | some rates => inputTokens / 1000 * rates.1 + outputTokens / 1000 * rates.2

mutual

/-- Embedding of JavaScript `text.split(/\s+/)`: each maximal whitespace
run is a separator, so leading (resp. trailing) whitespace contributes an
empty first (resp. last) element, and the empty string yields `[""]`.
This function scans at the start of a segment. -/
def splitWsAux : List Char → List (List Char)
  | [] => [[]]
  | c :: cs =>
    if isJsWs c then [] :: skipSep cs
    else
      match splitWsAux cs with
      | [] => [[c]]
      | l :: ls => (c :: l) :: ls

/-- Continuation of `splitWsAux` inside a whitespace separator run:
further whitespace extends the run, and the result is the list of
segments after the run. -/
def skipSep : List Char → List (List Char)
  | [] => [[]]
  | c :: cs =>
    if isJsWs c then skipSep cs
    else
      match splitWsAux cs with
      | [] => [[c]]
      | l :: ls => (c :: l) :: ls

end

/-- Embedding of `estimateTokens`: with
`words = text.split(/\s+/).length` and `characters = text.length`, the
result is `Math.ceil((words * 1.3 + characters / 4) / 2)` (exact rational
arithmetic). -/
def estimateTokens (text : List Char) : Int :=
  Int.ceil ((((splitWsAux text).length : ℚ) * 1.3 + ((text.length : ℚ) / 4)) / 2)

/-- Count of maximal non-whitespace runs; the flag records whether the scan
is currently inside such a run. -/
def runsAux : Bool → List Char → Nat
  | _, [] => 0
  | inRun, c :: cs =>
    if isJsWs c then runsAux false cs
    else (if inRun then 0 else 1) + runsAux true cs

/-- Modelled from the claim's words: the number of whitespace-separated
segments of a text, that is, the number of maximal non-whitespace runs. -/
def claimWordCount (s : List Char) : Nat := runsAux false s

/-- Modelled from the claim's words: the token estimate with `wordCount`
taken to be the number of whitespace-separated segments. -/
def claimTokens (text : List Char) : Int :=
  Int.ceil ((((claimWordCount text) : ℚ) * 1.3 + ((text.length : ℚ) / 4)) / 2)

/-- Conversation message: a role and a text content. -/
structure Message where
  role : String
  content : String

/-- Embedding of `formatMessagesForAnthropic`: map each message to one
whose role is `assistant` exactly when the original role is `assistant`
and `user` otherwise, keeping the content. -/
def formatMessagesForAnthropic (messages : List Message) : List Message :=
  messages.map fun msg =>
    { role := if msg.role = "assistant" then "assistant" else "user",
      content := msg.content }

/-- Modelled from the spec: the upstream OpenAI-style SSE wire encoding of
one content delta — a `data: ` record carrying
`{"choices":[{"delta":{"content":"<text>"}}]}` followed by the blank-line
record separator (the text is assumed to need no JSON escaping). -/
def sseDelta (text : String) : List Char :=
  ("data: \x7b\"choices\":[\x7b\"delta\":\x7b\"content\":\"".data) ++ text.data ++
    ("\"\x7d\x7d]\x7d\n\n".data)

/-- Modelled from the spec: a complete upstream streaming response body
sending the given content deltas in order and terminating with the
`data: [DONE]` sentinel. -/
def sseEncode (deltas : List String) : List Char :=
  (deltas.map sseDelta).flatten ++ ("data: [DONE]\n\n".data)

/-- Concatenation, in emission order, of the string contents passed to
`onChunk`. -/
def emittedText : List Event → String
  | [] => ""
  | Event.chunk (Json.str s) :: es => s ++ emittedText es
  | _ :: es => emittedText es

/-- The full content text a provider sends: the concatenation of its
deltas. -/
def sentText (deltas : List String) : String :=
  deltas.foldl (fun a s => a ++ s) ("")

/-- Terminal callbacks: `onComplete` and `onError`. -/
def isTerminal : Event → Bool
  | Event.complete => true
  | Event.error => true
  | Event.chunk _ => false

/-- Claim C1: for every upstream byte sequence fed through the streaming
parse loop of `openAIStream`, the concatenation, in emission order, of all
content chunks passed to `onChunk` equals the full content text the
provider sent.  This theorem exhibits the code bug refuting it: on the
standard SSE encoding of the two deltas `Hello` and ` world` (records
separated by a blank line, as the OpenAI wire format mandates), the loop
treats the first blank line like the `[DONE]` sentinel, fires `onComplete`
and returns, so only `Hello` is ever emitted although the provider sent
`Hello world`. -/
theorem c1_concatenation_truncated :
    runLoop [] [sseEncode [("Hello"), (" world")]] =
      ([Event.chunk (Json.str ("Hello")), Event.complete], true) ∧
    emittedText (runLoop [] [sseEncode [("Hello"), (" world")]]).1 = ("Hello") ∧
    sentText [("Hello"), (" world")] = ("Hello world") :=
  ⟨rfl, rfl, rfl⟩

/-- Claim C3: settings with `temperature` outside `[0, 2]` are rejected
with a configuration error before any upstream network call.  This theorem
exhibits the code bug refuting it: `validateSettings` does flag
`temperature = 2.5`, but `generateResponse` never invokes it (nothing in
the repository does) and dispatches straight to the OpenAI provider
request, so the upstream call is issued. -/
theorem c3_no_validation_before_dispatch :
    validateSettings { temperature := some (5/2) } = [temperatureError] ∧
    generateResponse { temperature := some (5/2) } =
      GenerateOutcome.providerCall ("openai") := by
  constructor
  · simp [validateSettings]
    norm_num
  · rfl

/-- Claim C5 (amended): the code performs no retry whatsoever — the
outcome of `openAIStream` depends only on the first connection attempt,
and a network failure on that attempt immediately surfaces `onError`
(authentication and configuration errors are likewise never retried,
because nothing is). -/
theorem c5_no_retry :
    (∀ f g : Nat → FetchResult, f 0 = g 0 → openAIStream f = openAIStream g) ∧
    (∀ f : Nat → FetchResult, f 0 = FetchResult.netError →
      openAIStream f = [Event.error]) := by
  constructor
  · intro f g h
    simp only [openAIStream, h]
  · intro f h
    simp only [openAIStream, h]

theorem c5_no_retry_witness :
    openAIStream (fun _ => FetchResult.netError) =
      openAIStream
        (fun n => if n = 0 then FetchResult.netError
          else FetchResult.response true [] false) ∧
    openAIStream (fun _ => FetchResult.netError) = [Event.error] :=
  ⟨c5_no_retry.1 _ _ rfl, c5_no_retry.2 _ rfl⟩

/-- Claim C5, counterexample: an upstream that fails on attempts 1 and 2
and would succeed on attempt 3 does not complete — the code emits
`onError` at once and never retries, although the attempt-3 response
would have produced a completed stream. -/
theorem c5_counterexample :
    openAIStream
      (fun n => if n < 2 then FetchResult.netError
        else FetchResult.response true [sseEncode [("Hi")]] false) = [Event.error] ∧
    Event.complete ∈
      openAIStream (fun _ => FetchResult.response true [sseEncode [("Hi")]] false) := by
  constructor
  · rfl
  · rw [show openAIStream (fun _ => FetchResult.response true [sseEncode [("Hi")]] false) =
      [Event.chunk (Json.str ("Hi")), Event.complete] from rfl]
    exact List.mem_cons_of_mem _ (List.mem_cons_self _ _)

/-- Claim C6: `estimateCost` returns
`inputTokens/1000 * inputRate + outputTokens/1000 * outputRate` whenever
the provider/model pair has a rate entry, returns `0` (not an error) when
it has none, and on `openai`/`gpt-3.5-turbo` with 1000 input and 500
output tokens yields `0.0025`. -/
theorem c6_estimateCost_formula :
    (∀ p m : String, ∀ i o : ℚ, ∀ r : ℚ × ℚ, costRates p m = some r →
      estimateCost p m i o = i / 1000 * r.1 + o / 1000 * r.2) ∧
    (∀ p m : String, ∀ i o : ℚ, costRates p m = none → estimateCost p m i o = 0) ∧
    estimateCost ("openai") ("gpt-3.5-turbo") 1000 500 = (0.0025 : ℚ) := by
  refine ⟨?_, ?_, ?_⟩
  · intro p m i o r h
    simp [estimateCost, h]
  · intro p m i o h
    simp [estimateCost, h]
  · simp only [estimateCost,
      show costRates ("openai") ("gpt-3.5-turbo") = some ((0.0015 : ℚ), (0.002 : ℚ)) from rfl]
    norm_num

theorem c6_estimateCost_formula_witness :
    estimateCost ("openai") ("gpt-4") 2000 1000 =
      2000 / 1000 * ((0.03 : ℚ), (0.06 : ℚ)).1 + 1000 / 1000 * ((0.03 : ℚ), (0.06 : ℚ)).2 ∧
    estimateCost ("cohere") ("command") 5 7 = 0 :=
  ⟨c6_estimateCost_formula.1 _ _ 2000 1000 _ rfl,
    c6_estimateCost_formula.2.1 _ _ 5 7 rfl⟩

/-- Claim C8: `formatMessagesForAnthropic` preserves length, order and
content, keeps the `assistant` role, and folds every other role to
`user`. -/
theorem c8_formatMessagesForAnthropic_spec (msgs : List Message) :
    (formatMessagesForAnthropic msgs).length = msgs.length ∧
    ∀ i : Nat, ∀ m : Message, msgs[i]? = some m →
      ∃ m' : Message, (formatMessagesForAnthropic msgs)[i]? = some m' ∧
        m'.content = m.content ∧
        (m.role = "assistant" → m'.role = "assistant") ∧
        (m.role ≠ "assistant" → m'.role = "user") := by
  constructor
  · simp [formatMessagesForAnthropic]
  · intro i m h
    refine ⟨Message.mk (if m.role = "assistant" then "assistant" else "user")
        m.content, ?_, rfl, ?_, ?_⟩
    · rw [formatMessagesForAnthropic, List.getElem?_map, h]
      rfl
    · intro hr
      simp [hr]
    · intro hr
      simp [hr]

theorem c8_formatMessagesForAnthropic_witness :
    ∃ m' : Message,
      (formatMessagesForAnthropic
        [⟨("system"), ("sys prompt")⟩, ⟨("assistant"), ("reply")⟩])[0]? = some m' ∧
      m'.content = (Message.mk ("system") ("sys prompt")).content ∧
      ((Message.mk ("system") ("sys prompt")).role = "assistant" → m'.role = "assistant") ∧
      ((Message.mk ("system") ("sys prompt")).role ≠ "assistant" → m'.role = "user") :=
  (c8_formatMessagesForAnthropic_spec _).2 0 ⟨("system"), ("sys prompt")⟩ rfl

/-- Claim C10: `validateSettings` never range-checks a `maxTokens` of `0`
(the truthiness guard skips it, so `0` passes although it is outside the
documented `1`–`400000` bound), and a `temperature` of `0` is likewise
never range-checked; with the other fields unset the error list is empty. -/
theorem c10_zero_skips_range_checks (s : Settings) (hm : s.maxTokens = some 0) :
    validateSettings s = validateSettings { s with maxTokens := none } ∧
    (s.temperature = some 0 → s.model = none → validateSettings s = []) := by
  constructor
  · simp [validateSettings, hm]
  · intro ht hmo
    simp [validateSettings, hm, ht, hmo]

theorem c10_zero_skips_range_checks_witness :
    validateSettings { temperature := some 0, maxTokens := some 0 } = [] :=
  (c10_zero_skips_range_checks _ rfl).2 rfl rfl

/-- Claim C2, counterexample: a well-formed stream that ends (reader
`done`) right after a single data record, without a blank line or `[DONE]`
sentinel, fires no terminal callback at all — neither `onComplete` nor
`onError` — refuting `exactly one ... never zero`. -/
theorem c2_counterexample :
    (streamResponse (some ("openai"))
      (fun _ => FetchResult.response true
        [("data: \x7b\"choices\":[\x7b\"delta\":\x7b\"content\":\"Hi\"\x7d\x7d]\x7d\n").data]
        false)).countP (fun e => isTerminal e) = 0 :=
  rfl

/-- Claim C7, counterexample: on the text `" a"` the code's word count
(`text.split(/\s+/).length`, which counts the empty segment created by the
leading space) is `2` and `estimateTokens` returns `2`, while the claim's
formula with `wordCount` = number of whitespace-separated segments (`1`)
returns `1`. -/
theorem c7_counterexample :
    estimateTokens ((" a").data) = 2 ∧
    claimWordCount ((" a").data) = 1 ∧
    claimTokens ((" a").data) = 1 := by
  refine ⟨?_, rfl, ?_⟩
  · rw [estimateTokens,
      show (splitWsAux ((" a").data)).length = 2 from rfl,
      show ((" a").data).length = 2 from rfl, Int.ceil_eq_iff]
    norm_num
  · rw [claimTokens, show claimWordCount ((" a").data) = 1 from rfl,
      show ((" a").data).length = 2 from rfl, Int.ceil_eq_iff]
    norm_num

theorem splitLines_append : ∀ (a b : List Char) (L1 : List (List Char)) (B1 : List Char)
    (L2 : List (List Char)) (B2 : List Char),
    splitLines a = (L1, B1) → splitLines (B1 ++ b) = (L2, B2) →
    splitLines (a ++ b) = (L1 ++ L2, B2) := by
  intro a
  induction a with
  | nil =>
    intro b L1 B1 L2 B2 h1 h2
    simp only [splitLines] at h1
    obtain ⟨rfl, rfl⟩ := Prod.mk.injEq .. ▸ h1
    simpa using h2
  | cons c a ih =>
    intro b L1 B1 L2 B2 h1 h2
    rcases hP : splitLines a with ⟨P1, P2⟩
    by_cases hc : c = '\n'
    · subst hc
      rw [show splitLines ('\n' :: a) = ([] :: (splitLines a).1, (splitLines a).2) from by
          simp [splitLines], hP] at h1
      obtain ⟨rfl, rfl⟩ := Prod.mk.injEq .. ▸ h1
      have ihh := ih b P1 P2 L2 B2 hP h2
      rw [List.cons_append,
        show splitLines ('\n' :: (a ++ b)) =
          ([] :: (splitLines (a ++ b)).1, (splitLines (a ++ b)).2) from by simp [splitLines],
        ihh]
      simp
    · cases P1 with
      | nil =>
        rw [show splitLines (c :: a) =
            (match splitLines a with
             | ([], bb) => (([] : List (List Char)), c :: bb)
             | (l :: ls, bb) => ((c :: l) :: ls, bb)) from by simp [splitLines, hc], hP] at h1
        obtain ⟨rfl, rfl⟩ := Prod.mk.injEq .. ▸ h1
        rcases hQ : splitLines (P2 ++ b) with ⟨Q1, Q2⟩
        have ihh := ih b [] P2 Q1 Q2 hP hQ
        rw [List.cons_append] at h2
        rw [show splitLines (c :: (P2 ++ b)) =
            (match splitLines (P2 ++ b) with
             | ([], bb) => (([] : List (List Char)), c :: bb)
             | (l :: ls, bb) => ((c :: l) :: ls, bb)) from by simp [splitLines, hc], hQ] at h2
        rw [List.cons_append,
          show splitLines (c :: (a ++ b)) =
            (match splitLines (a ++ b) with
             | ([], bb) => (([] : List (List Char)), c :: bb)
             | (l :: ls, bb) => ((c :: l) :: ls, bb)) from by simp [splitLines, hc],
          ihh]
        cases Q1 with
        | nil => simpa using h2
        | cons q qs => simpa using h2
      | cons l ls =>
        rw [show splitLines (c :: a) =
            (match splitLines a with
             | ([], bb) => (([] : List (List Char)), c :: bb)
             | (l :: ls, bb) => ((c :: l) :: ls, bb)) from by simp [splitLines, hc], hP] at h1
        obtain ⟨rfl, rfl⟩ := Prod.mk.injEq .. ▸ h1
        have ihh := ih b (l :: ls) P2 L2 B2 hP h2
        rw [List.cons_append,
          show splitLines (c :: (a ++ b)) =
            (match splitLines (a ++ b) with
             | ([], bb) => (([] : List (List Char)), c :: bb)
             | (l :: ls, bb) => ((c :: l) :: ls, bb)) from by simp [splitLines, hc],
          ihh]
        simp

theorem processLines_append (xs ys : List (List Char)) :
    processLines (xs ++ ys) =
      (if (processLines xs).2 then processLines xs
       else ((processLines xs).1 ++ (processLines ys).1, (processLines ys).2)) := by
  induction xs with
  | nil => simp [processLines]
  | cons l xs ih =>
    cases h : lineAction l with
    | terminal => simp [processLines, h]
    | emit c =>
      by_cases ht : (processLines xs).2
      · simp [processLines, h, ih, ht]
      · simp [processLines, h, ih, ht]
    | skip => simp [processLines, h, ih]

theorem runLoop_cons (buffer c : List Char) (cs : List (List Char)) :
    runLoop buffer (c :: cs) =
      (if (processLines (splitLines (buffer ++ c)).1).2
       then ((processLines (splitLines (buffer ++ c)).1).1, true)
       else ((processLines (splitLines (buffer ++ c)).1).1 ++
              (runLoop (splitLines (buffer ++ c)).2 cs).1,
             (runLoop (splitLines (buffer ++ c)).2 cs).2)) :=
  rfl

theorem runLoop_concat (cs : List (List Char)) : ∀ buf : List Char, cs ≠ [] →
    runLoop buf cs = processLines (splitLines (buf ++ cs.flatten)).1 := by
  induction cs with
  | nil => intro buf h; exact absurd rfl h
  | cons c cs ih =>
    intro buf _
    cases cs with
    | nil =>
      rw [runLoop_cons]
      simp only [List.flatten_cons, List.flatten_nil, List.append_nil]
      rcases hr : processLines (splitLines (buf ++ c)).1 with ⟨es, t⟩
      cases t
      · simp [runLoop, hr]
      · simp [hr]
    | cons c2 cs2 =>
      rw [runLoop_cons]
      rcases hP : splitLines (buf ++ c) with ⟨L1, B1⟩
      rcases hQ : splitLines (B1 ++ (c2 :: cs2).flatten) with ⟨L2, B2⟩
      have hseam : splitLines (buf ++ (c :: c2 :: cs2).flatten) = (L1 ++ L2, B2) := by
        rw [show buf ++ (c :: c2 :: cs2).flatten = (buf ++ c) ++ (c2 :: cs2).flatten from by
          simp [List.flatten_cons, List.append_assoc]]
        exact splitLines_append _ _ _ _ _ _ hP hQ
      rw [hseam]
      have ihh : runLoop B1 (c2 :: cs2) = processLines L2 := by
        rw [ih B1 (by simp), hQ]
      rw [processLines_append, ihh]
      rcases hE : processLines L1 with ⟨E1, t⟩
      cases t
      · simp [hE]
      · simp [hE]

/-- Claim C4: feeding an upstream byte sequence to the `openAIStream` parse
loop split at arbitrary chunk boundaries produces exactly the same ordered
event sequence (with the same early-return behaviour) as feeding it as one
single chunk: the trailing incomplete line is carried forward in the
buffer between reads. -/
theorem c4_chunk_boundary_independence (cs : List (List Char)) :
    runLoop [] cs = runLoop [] [cs.flatten] := by
  cases cs with
  | nil => rfl
  | cons c cs' =>
    rw [runLoop_concat (c :: cs') [] (by simp),
      runLoop_concat [(c :: cs').flatten] [] (by simp)]
    simp

theorem processLines_no_mid_terminal (ls : List (List Char)) :
    ((processLines ls).2 = true →
      ∃ es, (processLines ls).1 = es ++ [Event.complete] ∧
        es.all (fun e => !isTerminal e) = true) ∧
    ((processLines ls).2 = false →
      (processLines ls).1.all (fun e => !isTerminal e) = true) := by
  induction ls with
  | nil => simp [processLines]
  | cons l ls ih =>
    cases h : lineAction l with
    | terminal =>
      constructor
      · intro _
        exact ⟨[], by simp [processLines, h], rfl⟩
      · intro hf
        simp [processLines, h] at hf
    | emit c =>
      constructor
      · intro ht
        simp only [processLines, h] at ht ⊢
        obtain ⟨es, h1, h2⟩ := ih.1 ht
        exact ⟨Event.chunk c :: es, by simp [h1], by simpa [isTerminal] using h2⟩
      · intro hf
        simp only [processLines, h] at hf ⊢
        simpa [isTerminal] using ih.2 hf
    | skip =>
      simpa only [processLines, h] using ih

theorem all_not_terminal_append {l1 l2 : List Event}
    (h1 : l1.all (fun e => !isTerminal e) = true)
    (h2 : l2.all (fun e => !isTerminal e) = true) :
    (l1 ++ l2).all (fun e => !isTerminal e) = true := by
  rw [List.all_append, h1, h2]
  rfl

theorem runLoop_no_mid_terminal (cs : List (List Char)) : ∀ buf : List Char,
    ((runLoop buf cs).2 = true →
      ∃ es, (runLoop buf cs).1 = es ++ [Event.complete] ∧
        es.all (fun e => !isTerminal e) = true) ∧
    ((runLoop buf cs).2 = false →
      (runLoop buf cs).1.all (fun e => !isTerminal e) = true) := by
  induction cs with
  | nil =>
    intro buf
    simp [runLoop]
  | cons c cs ih =>
    intro buf
    rw [runLoop_cons]
    rcases hr : processLines (splitLines (buf ++ c)).1 with ⟨es, t⟩
    have hshape := processLines_no_mid_terminal (splitLines (buf ++ c)).1
    rw [hr] at hshape
    cases t
    · rw [if_neg (by simp)]
      constructor
      · intro ht
        simp only at ht
        obtain ⟨es2, h1, h2⟩ := (ih (splitLines (buf ++ c)).2).1 ht
        refine ⟨es ++ es2, by simp [h1], ?_⟩
        exact all_not_terminal_append (hshape.2 rfl) h2
      · intro hf
        simp only at hf
        exact all_not_terminal_append (hshape.2 rfl) ((ih (splitLines (buf ++ c)).2).2 hf)
    · rw [if_pos (by simp)]
      constructor
      · intro _
        exact hshape.1 rfl
      · intro hf
        simp at hf

theorem all_not_terminal_dropLast {l : List Event}
    (h : l.all (fun e => !isTerminal e) = true) :
    l.dropLast.all (fun e => !isTerminal e) = true := by
  rw [List.all_eq_true] at h ⊢
  intro x hx
  exact h x ((List.dropLast_sublist l).subset hx)

theorem openAIStream_no_mid_terminal (f : Nat → FetchResult) :
    (openAIStream f).dropLast.all (fun e => !isTerminal e) = true := by
  cases hf : f 0 with
  | netError =>
    have hv : openAIStream f = [Event.error] := by simp [openAIStream, hf]
    rw [hv]
    rfl
  | response ok chunks readErr =>
    cases ok with
    | false =>
      have hv : openAIStream f = [Event.error] := by simp [openAIStream, hf]
      rw [hv]
      rfl
    | true =>
      rcases hr : runLoop [] chunks with ⟨es, t⟩
      have hshape := runLoop_no_mid_terminal chunks []
      rw [hr] at hshape
      cases t with
      | true =>
        have hv : openAIStream f = es := by simp [openAIStream, hf, hr]
        rw [hv]
        obtain ⟨es2, h1, h2⟩ := hshape.1 rfl
        simp only at h1
        rw [h1, List.dropLast_concat]
        exact h2
      | false =>
        have hall := hshape.2 rfl
        simp only at hall
        cases readErr with
        | true =>
          have hv : openAIStream f = es ++ [Event.error] := by simp [openAIStream, hf, hr]
          rw [hv, List.dropLast_concat]
          exact hall
        | false =>
          have hv : openAIStream f = es := by simp [openAIStream, hf, hr]
          rw [hv]
          exact all_not_terminal_dropLast hall

theorem countP_terminal_le_one {l : List Event}
    (h : l.dropLast.all (fun e => !isTerminal e) = true) :
    l.countP (fun e => isTerminal e) ≤ 1 := by
  rcases List.eq_nil_or_concat l with rfl | ⟨l', a, rfl⟩
  · simp
  · rw [List.concat_eq_append] at h ⊢
    rw [List.dropLast_concat] at h
    rw [List.countP_append]
    have h0 : l'.countP (fun e => isTerminal e) = 0 := by
      rw [List.countP_eq_zero]
      intro x hx
      have := List.all_eq_true.mp h x hx
      simpa using this
    rw [h0, List.countP_cons, List.countP_nil]
    split <;> omega

/-- Claim C2 (amended): at most one terminal callback fires per
`streamResponse` invocation — never both `onComplete` and `onError` — and
no `onChunk` call occurs after the terminal callback (every terminal event
is the last event emitted); however, when the upstream stream ends without
an empty line, `[DONE]` sentinel, or error, no terminal callback fires at
all, so the `never zero` half of the claim fails. -/
theorem c2_at_most_one_terminal (provider : Option String) (f : Nat → FetchResult) :
    (streamResponse provider f).dropLast.all (fun e => !isTerminal e) = true ∧
    (streamResponse provider f).countP (fun e => isTerminal e) ≤ 1 := by
  have main : (streamResponse provider f).dropLast.all (fun e => !isTerminal e) = true := by
    rw [streamResponse]
    by_cases hp : jsOr provider ("openai") = "openai"
    · rw [if_pos hp]
      exact openAIStream_no_mid_terminal f
    · rw [if_neg hp]
      split <;> rfl
  exact ⟨main, countP_terminal_le_one main⟩

/-- Claim C9: a malformed record — a `data: ` line whose payload fails
`JSON.parse` — is skipped without emitting a content chunk, without
terminating the stream, and without surfacing a failure: the line loop
produces exactly the events (and termination behaviour) it would produce
with the malformed line removed. -/
theorem c9_malformed_record_skipped (pre post : List (List Char)) (l : List Char)
    (h1 : jsTrim l ≠ []) (h2 : jsTrim l ≠ ("data: [DONE]".data))
    (h3 : startsWith (jsTrim l) ("data: ".data) = true)
    (h4 : jsonParse ((jsTrim l).drop 6) = none) :
    processLines (pre ++ l :: post) = processLines (pre ++ post) := by
  have hskip : lineAction l = LineAct.skip := by
    rw [lineAction]
    rw [if_neg (by simp [h1, h2]), if_pos h3, h4]
  induction pre with
  | nil => simp [processLines, hskip]
  | cons p pre ih =>
    cases h : lineAction p <;> simp [processLines, h, ih]

theorem c9_malformed_record_skipped_witness :
    jsTrim (("data: \x7bbroken json").data) ≠ [] ∧
    jsTrim (("data: \x7bbroken json").data) ≠ ("data: [DONE]".data) ∧
    startsWith (jsTrim (("data: \x7bbroken json").data)) ("data: ".data) = true ∧
    jsonParse ((jsTrim (("data: \x7bbroken json").data)).drop 6) = none ∧
    processLines
      ([("data: \x7b\"choices\":[\x7b\"delta\":\x7b\"content\":\"A\"\x7d\x7d]\x7d").data] ++
        ("data: \x7bbroken json").data ::
        [("data: \x7b\"choices\":[\x7b\"delta\":\x7b\"content\":\"B\"\x7d\x7d]\x7d").data]) =
    processLines
      ([("data: \x7b\"choices\":[\x7b\"delta\":\x7b\"content\":\"A\"\x7d\x7d]\x7d").data] ++
        [("data: \x7b\"choices\":[\x7b\"delta\":\x7b\"content\":\"B\"\x7d\x7d]\x7d").data]) :=
  ⟨by decide, by decide, rfl, rfl,
    c9_malformed_record_skipped _ _ _ (by decide) (by decide) rfl rfl⟩

theorem splitWsAux_ne_nil (s : List Char) : splitWsAux s ≠ [] := by
  cases s with
  | nil => simp [splitWsAux]
  | cons c cs =>
    simp only [splitWsAux]
    split
    · simp
    · split <;> simp

theorem splitWs_count_aux : ∀ (n : Nat) (s : List Char), s.length ≤ n →
    (s = [] ∨ isJsWs (s.getLastD ' ') = false) →
    ((splitWsAux s).length =
        runsAux false s + (if s = [] ∨ isJsWs (s.headD ' ') = true then 1 else 0)) ∧
    ((skipSep s).length = runsAux false s + (if s = [] then 1 else 0)) := by
  intro n
  induction n with
  | zero =>
    intro s hn _
    have hs : s = [] := List.length_eq_zero.mp (Nat.le_zero.mp hn)
    subst hs
    simp [splitWsAux, skipSep, runsAux]
  | succ n ih =>
    intro s hn hlast
    cases s with
    | nil => simp [splitWsAux, skipSep, runsAux]
    | cons c cs =>
      have hlast' : isJsWs ((c :: cs).getLastD ' ') = false :=
        hlast.resolve_left (by simp)
      by_cases hc : isJsWs c = true
      · have hcs_ne : cs ≠ [] := by
          intro hcs
          subst hcs
          simp [List.getLastD] at hlast'
          rw [hlast'] at hc
          exact Bool.false_ne_true hc
        have hlcs : isJsWs (cs.getLastD ' ') = false := by
          rcases cs with _ | ⟨d, t⟩
          · exact absurd rfl hcs_ne
          · simpa [List.getLastD_cons] using hlast'
        have IH := ih cs (by simp at hn; omega) (Or.inr hlcs)
        constructor
        · simp only [splitWsAux, if_pos hc, List.length_cons]
          rw [IH.2]
          simp [runsAux, hc, hcs_ne]
        · simp only [skipSep, if_pos hc]
          rw [IH.2]
          simp [runsAux, hc, hcs_ne]
      · have hc' : isJsWs c = false := by simpa using hc
        have key : (splitWsAux cs).length = 1 + runsAux true cs := by
          rcases cs with _ | ⟨d, t⟩
          · simp [splitWsAux, runsAux]
          · have hlcs : isJsWs ((d :: t).getLastD ' ') = false := by
              simpa [List.getLastD_cons] using hlast'
            have IH := ih (d :: t) (by simp at hn ⊢; omega) (Or.inr hlcs)
            by_cases hd : isJsWs d = true
            · rw [IH.1, if_pos (by simp [hd]),
                show runsAux false (d :: t) = runsAux false t from by simp [runsAux, hd],
                show runsAux true (d :: t) = runsAux false t from by simp [runsAux, hd]]
              omega
            · have hd' : isJsWs d = false := by simpa using hd
              rw [IH.1, if_neg (by simp [hd']),
                show runsAux false (d :: t) = 1 + runsAux true t from by simp [runsAux, hd'],
                show runsAux true (d :: t) = runsAux true t from by simp [runsAux, hd']]
              omega
        have hruns : runsAux false (c :: cs) = 1 + runsAux true cs := by
          simp [runsAux, hc']
        constructor
        · rw [if_neg (by simp [hc'])]
          rcases hsp : splitWsAux cs with _ | ⟨sl, sls⟩
          · exact absurd hsp (splitWsAux_ne_nil cs)
          · have hlen : (splitWsAux (c :: cs)).length = (splitWsAux cs).length := by
              simp [splitWsAux, hc', hsp]
            rw [hlen, key, hruns]
            omega
        · rw [if_neg (by simp)]
          rcases hsp : splitWsAux cs with _ | ⟨sl, sls⟩
          · exact absurd hsp (splitWsAux_ne_nil cs)
          · have hlen : (skipSep (c :: cs)).length = (splitWsAux cs).length := by
              simp [skipSep, hc', hsp]
            rw [hlen, key, hruns]
            omega

/-- Claim C7 (amended): `estimateTokens` returns
`ceil((wordCount * 1.3 + charCount / 4) / 2)` where `wordCount` is the
length of `text.split(/\s+/)`; this equals the number of
whitespace-separated segments exactly when the text is nonempty and
neither starts nor ends with whitespace — otherwise the JavaScript split
adds empty segments (one per boundary whitespace run, and `[""]` for the
empty string) that inflate the count. -/
theorem c7_formula_on_clean_text (s : List Char) (h0 : s ≠ [])
    (hh : isJsWs (s.headD ' ') = false) (hl : isJsWs (s.getLastD ' ') = false) :
    estimateTokens s = claimTokens s := by
  have hlen := (splitWs_count_aux s.length s le_rfl (Or.inr hl)).1
  have hcond : ¬(s = [] ∨ isJsWs (s.headD ' ') = true) := by
    rintro (h | h)
    · exact h0 h
    · rw [hh] at h
      exact Bool.false_ne_true h
  rw [if_neg hcond] at hlen
  rw [estimateTokens, claimTokens, claimWordCount, hlen]
  simp

theorem c7_formula_on_clean_text_witness :
    estimateTokens (("hello world").data) = claimTokens (("hello world").data) :=
  c7_formula_on_clean_text _ (by decide) (by decide) (by decide)

end UltraAIService
